import Mathlib

/-!
Shallow embedding of the movie-tracking application's persistent store
(`storage/movie_storage_sql.py`) together with the OMDb payload parser and
the filename sanitizer from `movies.py`, and proofs of the store's CRUD
contract.

Modelling conventions:
* SQLite tables are lists of row structures; `AUTOINCREMENT` columns draw
  from an explicit sequence counter carried in the database state.
* SQLite `REAL` values (ratings) are modelled as rationals; IEEE-754
  rounding is not modelled, values flow through storage unchanged.
* Exceptions (`ValueError`, `IntegrityError`) are modelled as
  `Except.error`.
* Python strings are Lean `String`s; `str.strip()` is modelled on the
  ASCII whitespace characters (non-ASCII Unicode whitespace is ignored,
  as are Unicode digits and letters in `int()` / `str.isalnum()`).
-/

namespace MovieApp

/-- Python `str.strip()` default whitespace characters (ASCII subset). -/
def isPySpace (c : Char) : Bool :=
  c = ' ' || c = '\t' || c = '\n' || c = '\r' || c = '\x0b' || c = '\x0c'

/-- Drop leading and trailing characters satisfying `p` (the list behind
Python `str.strip()`). -/
def stripList (p : Char → Bool) (l : List Char) : List Char :=
  ((l.dropWhile p).reverse.dropWhile p).reverse

/-- Python `name.strip()`. -/
def pyStrip (s : String) : String :=
  String.mk (stripList isPySpace s.data)

/-- A row of the `users` table created by `init_db`:
`id INTEGER PRIMARY KEY AUTOINCREMENT, name TEXT UNIQUE NOT NULL`. -/
structure UserRow where
  id : Nat
  name : String
deriving Repr, DecidableEq

/-- A row of the `movies` table created by `init_db`: id, title, year,
rating, poster_url, user_id, with `UNIQUE (title, user_id)` and a declared
(but, see `add_movie`, unenforced) foreign key on `user_id`. -/
structure MovieRow where
  id : Nat
  title : String
  year : Int
  rating : ℚ
  poster_url : String
  user_id : Nat
deriving Repr, DecidableEq

/-- The state of the database file: the two tables plus their
`AUTOINCREMENT` sequences (`sqlite_sequence`), which only ever grow. -/
structure DB where
  users : List UserRow
  movies : List MovieRow
  userSeq : Nat
  movieSeq : Nat
deriving Repr, DecidableEq

/-- The database right after `init_db` on a fresh file: both tables empty. -/
def initDB : DB := ⟨[], [], 0, 0⟩

/-- The pair constrained by `UNIQUE (title, user_id)`. -/
def movieKey (m : MovieRow) : String × Nat := (m.title, m.user_id)

/-- Boolean test `title = :title AND user_id = :user_id` used by the
DELETE/UPDATE statements and by the uniqueness constraint. -/
def matchesKey (title : String) (user_id : Nat) (m : MovieRow) : Bool :=
  m.title == title && m.user_id == user_id

/-- `get_or_create_user(name)`: strips the name, raises `ValueError` when the
stripped name is empty, otherwise returns the existing row of that name or
inserts a fresh row (AUTOINCREMENT id) and re-selects it by name. -/
def get_or_create_user (name : String) (db : DB) : Except String (UserRow × DB) :=
  let cleaned := pyStrip name
  if cleaned = "" then
    Except.error "User name cannot be empty"
  else
    match db.users.find? (fun r => r.name == cleaned) with
    | some row => Except.ok (row, db)
    | none =>
        let newId := db.userSeq + 1
        let db2 : DB := { db with users := db.users ++ [⟨newId, cleaned⟩], userSeq := newId }
        match db2.users.find? (fun r => r.name == cleaned) with
        | some row => Except.ok (row, db2)
        | none => Except.error "unreachable: inserted row not found"

/-- Lexicographic order on code points, which is exactly how SQLite's
BINARY collation compares TEXT values (memcmp on UTF-8 bytes preserves
code-point order). -/
def charListLE : List Char → List Char → Bool
  | [], _ => true
  | _ :: _, [] => false
  | a :: as, b :: bs =>
      if a.toNat < b.toNat then true
      else if b.toNat < a.toNat then false
      else charListLE as bs

/-- Row ordering used by `ORDER BY title`. -/
def titleLE (a b : MovieRow) : Prop := charListLE a.title.data b.title.data = true

instance : DecidableRel titleLE :=
  fun a b => inferInstanceAs (Decidable (charListLE a.title.data b.title.data = true))

/-- The per-title record `{"year": ..., "rating": ..., "poster_url": ...}`
returned by `list_movies`. -/
structure MovieEntry where
  year : Int
  rating : ℚ
  poster_url : String
deriving Repr, DecidableEq

/-- `list_movies(user_id)`: `SELECT title, year, rating, poster_url FROM
movies WHERE user_id = :user_id ORDER BY title`, collected into a dict keyed
by title. Python dicts keep insertion order, and under the schema's per-user
title uniqueness no key repeats, so the dict is exactly this sorted
association list. -/
def list_movies (user_id : Nat) (db : DB) : List (String × MovieEntry) :=
  (List.insertionSort titleLE (db.movies.filter (fun m => m.user_id == user_id))).map
    (fun m => (m.title, ⟨m.year, m.rating, m.poster_url⟩))

/-- `add_movie`: a single INSERT. The `UNIQUE (title, user_id)` constraint
makes SQLite raise `IntegrityError` on a duplicate key, modelled as
`Except.error`. The declared `FOREIGN KEY (user_id) REFERENCES users(id)` is
NOT enforced: the engine never issues `PRAGMA foreign_keys=ON` (and
SQLAlchemy does not do so by default), and SQLite leaves foreign-key
enforcement off, so an insert with an unknown `user_id` succeeds. -/
def add_movie (title : String) (year : Int) (rating : ℚ) (poster_url : String)
    (user_id : Nat) (db : DB) : Except String DB :=
  if db.movies.any (matchesKey title user_id) then
    Except.error "UNIQUE constraint failed: movies.title, movies.user_id"
  else
    Except.ok { db with
      movies := db.movies ++ [⟨db.movieSeq + 1, title, year, rating, poster_url, user_id⟩],
      movieSeq := db.movieSeq + 1 }

/-- The `try/except` wrapper around `storage.add_movie` in
`command_add_movie` (movies.py): an exception from the insert is caught and
reported as a printed error line, leaving the database as it was. -/
def add_movie_checked (title : String) (year : Int) (rating : ℚ) (poster_url : String)
    (user_id : Nat) (db : DB) : DB × Option String :=
  match add_movie title year rating poster_url user_id db with
  | Except.ok db2 => (db2, none)
  | Except.error e => (db, some ("Error while adding movie: " ++ e))

/-- `delete_movie`: `DELETE FROM movies WHERE title = :title AND user_id =
:user_id`; returns the new state and the statement's rowcount. The code
prints the "not found" message exactly when the rowcount is 0. -/
def delete_movie (title : String) (user_id : Nat) (db : DB) : DB × Nat :=
  ({ db with movies := db.movies.filter (fun m => !(matchesKey title user_id m)) },
   db.movies.countP (matchesKey title user_id))

/-- `update_movie`: `UPDATE movies SET rating = :rating WHERE title = :title
AND user_id = :user_id`; returns the new state and the rowcount. The code
prints the "not found" message exactly when the rowcount is 0. -/
def update_movie (title : String) (rating : ℚ) (user_id : Nat) (db : DB) : DB × Nat :=
  ({ db with movies := db.movies.map (fun m =>
      if matchesKey title user_id m then { m with rating := rating } else m) },
   db.movies.countP (matchesKey title user_id))

/-- Value of a list of decimal digit characters. -/
def digitsToNat (l : List Char) : Nat :=
  l.foldl (fun n c => 10 * n + (c.toNat - 48)) 0

/-- Split a character list at the first character satisfying `p`; `none`
when no character matches. -/
def splitFirst (p : Char → Bool) : List Char → List Char × Option (List Char)
  | [] => ([], none)
  | c :: cs =>
      if p c then ([], some cs)
      else
        let r := splitFirst p cs
        (c :: r.1, r.2)

/-- Python `int(s)` on a string: surrounding whitespace is ignored, an
optional sign is followed by a nonempty run of decimal digits. (Underscore
digit separators and non-ASCII digits are not modelled.) -/
def pyInt (s : String) : Option Int :=
  let l := stripList isPySpace s.data
  let sg : Int × List Char :=
    match l with
    | '-' :: rest => (-1, rest)
    | '+' :: rest => (1, rest)
    | _ => (1, l)
  if sg.2.isEmpty then none
  else if sg.2.all Char.isDigit then some (sg.1 * (digitsToNat sg.2 : Int))
  else none

/-- Python `s[:n]`. -/
def pyTake (n : Nat) (s : String) : String := String.mk (s.data.take n)

/-- Python `float(s)` on finite decimal literals: surrounding whitespace
ignored, optional sign, `digits[.digits][(e|E)[sign]digits]` with at least
one mantissa digit. The value is exact (IEEE rounding is not modelled),
and the special forms `inf`/`nan`/hex/underscores are not modelled; none of
them occurs in the payloads the claims quantify over. -/
def pyFloat (s : String) : Option ℚ :=
  let l := stripList isPySpace s.data
  let sg : Int × List Char :=
    match l with
    | '-' :: rest => (-1, rest)
    | '+' :: rest => (1, rest)
    | _ => (1, l)
  let me := splitFirst (fun c => c = 'e' || c = 'E') sg.2
  let ipfp := splitFirst (fun c => c = '.') me.1
  let fp := ipfp.2.getD []
  let expVal : Option Int :=
    match me.2 with
    | none => some 0
    | some e =>
        let esg : Int × List Char :=
          match e with
          | '-' :: rest => (-1, rest)
          | '+' :: rest => (1, rest)
          | _ => (1, e)
        if esg.2.isEmpty then none
        else if esg.2.all Char.isDigit then some (esg.1 * (digitsToNat esg.2 : Int))
        else none
  if (ipfp.1 ++ fp).isEmpty then none
  else if ipfp.1.all Char.isDigit && fp.all Char.isDigit then
    match expVal with
    | none => none
    | some e =>
        let shift : Int := e - fp.length
        some (if 0 ≤ shift then
                mkRat (sg.1 * (digitsToNat (ipfp.1 ++ fp) : Int) * ((10 : Int) ^ shift.toNat)) 1
              else
                mkRat (sg.1 * (digitsToNat (ipfp.1 ++ fp) : Int)) ((10 : Nat) ^ (-shift).toNat))
  else none

/-- An OMDb JSON payload as `parse_omdb_result` consumes it: the four fields
the parser reads, each possibly absent. (The payload's fields are JSON
strings; other keys are never read.) -/
structure OmdbData where
  Title : Option String
  Year : Option String
  imdbRating : Option String
  Poster : Option String
deriving Repr, DecidableEq

/-- `parse_omdb_result(data)` (movies.py): title is `data.get("Title",
"").strip()`; year is `int(year_str[:4])` of the stripped year with 0 on
failure; rating is 0.0 for a stripped value of `""` or `"N/A"`, otherwise
`float(...)` with 0.0 on failure; poster is `data.get("Poster") or ""`. -/
def parse_omdb_result (d : OmdbData) : String × Int × ℚ × String :=
  let title := pyStrip (d.Title.getD "")
  let year_str := pyStrip (d.Year.getD "")
  let year : Int :=
    match pyInt (pyTake 4 year_str) with
    | some n => n
    | none => 0
  let rating_str := pyStrip (d.imdbRating.getD "")
  let rating : ℚ :=
    if rating_str = "N/A" || rating_str = "" then 0
    else
      match pyFloat rating_str with
      | some q => q
      | none => 0
  (title, year, rating, d.Poster.getD "")

/-- The year rule exactly as the spec words it, with no trimming: "the
integer value of the first 4 characters of the year field, or 0 when that
prefix is not a valid integer or the field is absent". -/
def claimYear (d : OmdbData) : Int :=
  match d.Year with
  | none => 0
  | some y =>
      match pyInt (pyTake 4 y) with
      | some n => n
      | none => 0

/-- Amended year rule: the first 4 characters are taken from the
whitespace-trimmed year field. -/
def amendedYear (d : OmdbData) : Int :=
  match d.Year with
  | none => 0
  | some y =>
      match pyInt (pyTake 4 (pyStrip y)) with
      | some n => n
      | none => 0

/-- Amended rating rule: the rating field is trimmed; the literal `"N/A"`,
the empty string, an absent field, and an unparseable value all give 0.0. -/
def amendedRating (d : OmdbData) : ℚ :=
  match d.imdbRating with
  | none => 0
  | some r0 =>
      let r := pyStrip r0
      if r = "N/A" || r = "" then 0
      else
        match pyFloat r with
        | some q => q
        | none => 0

/-- Characters retained by the sanitizer: `c.isalnum() or c in (" ", "_",
"-")` (ASCII alphanumerics; non-ASCII letters are not modelled). -/
def keepChar (c : Char) : Bool :=
  c.isAlphanum || c = ' ' || c = '_' || c = '-'

/-- `sanitize_filename(name)` (movies.py): keep only alphanumerics, space,
underscore and hyphen, `strip()` the result, replace spaces with
underscores, and fall back to `"user"` when the final string is empty. -/
def sanitize_filename (name : String) : String :=
  let cleaned := String.mk (stripList isPySpace (name.data.filter keepChar))
  let replaced := String.mk (cleaned.data.map (fun c => if c = ' ' then '_' else c))
  if replaced = "" then "user" else replaced

/-- The sanitizer exactly as the spec words it: keep only alphanumerics,
spaces, underscores and hyphens, replace spaces with underscores, default
when empty — with no trimming step. -/
def claimSanitize (name : String) : String :=
  let kept := String.mk (name.data.filter keepChar)
  let replaced := String.mk (kept.data.map (fun c => if c = ' ' then '_' else c))
  if replaced = "" then "user" else replaced

/-- Amended sanitizer: as the spec words it, plus trimming the surrounding
spaces (the only whitespace that survives the filter) before the
replacement step. -/
def amendedSanitize (name : String) : String :=
  let kept := name.data.filter keepChar
  let trimmed := stripList (fun c => c = ' ') kept
  let replaced := trimmed.map (fun c => if c = ' ' then '_' else c)
  if replaced.isEmpty then "user" else String.mk replaced

/-- A sample populated database used to witness the CRUD theorems: Alice
(id 1) owns "Inception" and "Arrival", Bob (id 2) owns his own "Inception". -/
def exDB : DB :=
  ⟨[⟨1, "Alice"⟩, ⟨2, "Bob"⟩],
   [⟨1, "Inception", 2010, 9, "", 1⟩, ⟨2, "Inception", 2010, 7, "", 2⟩,
    ⟨3, "Arrival", 2016, 8, "", 1⟩],
   2, 3⟩

/-! ### Helper lemmas -/

theorem charListLE_cons_iff (a b : Char) (as bs : List Char) :
    charListLE (a :: as) (b :: bs) = true ↔
      a.toNat < b.toNat ∨ (a.toNat = b.toNat ∧ charListLE as bs = true) := by
  by_cases h1 : a.toNat < b.toNat
  · simp [charListLE, h1]
  · by_cases h2 : b.toNat < a.toNat
    · simp [charListLE, h1, h2]; omega
    · have h3 : a.toNat = b.toNat := by omega
      simp [charListLE, h1, h2, h3]

theorem charListLE_total : ∀ x y : List Char, charListLE x y = true ∨ charListLE y x = true := by
  intro x
  induction x with
  | nil => intro y; left; rfl
  | cons a as ih =>
    intro y
    cases y with
    | nil => right; rfl
    | cons b bs =>
      rw [charListLE_cons_iff, charListLE_cons_iff]
      rcases ih bs with h | h
      · by_cases hab : a.toNat < b.toNat
        · left; exact Or.inl hab
        · by_cases hba : b.toNat < a.toNat
          · right; exact Or.inl hba
          · left; exact Or.inr ⟨by omega, h⟩
      · by_cases hba : b.toNat < a.toNat
        · right; exact Or.inl hba
        · by_cases hab : a.toNat < b.toNat
          · left; exact Or.inl hab
          · right; exact Or.inr ⟨by omega, h⟩

theorem charListLE_trans : ∀ x y z : List Char,
    charListLE x y = true → charListLE y z = true → charListLE x z = true := by
  intro x
  induction x with
  | nil => intro y z _ _; rfl
  | cons a as ih =>
    intro y z hxy hyz
    cases y with
    | nil => simp [charListLE] at hxy
    | cons b bs =>
      cases z with
      | nil => simp [charListLE] at hyz
      | cons c cs =>
        rw [charListLE_cons_iff] at hxy hyz ⊢
        rcases hxy with h1 | ⟨h1, h1r⟩
        · rcases hyz with h2 | ⟨h2, _⟩
          · exact Or.inl (by omega)
          · exact Or.inl (by omega)
        · rcases hyz with h2 | ⟨h2, h2r⟩
          · exact Or.inl (by omega)
          · exact Or.inr ⟨by omega, ih bs cs h1r h2r⟩

theorem dropWhile_dropWhile (p : Char → Bool) :
    ∀ l : List Char, (l.dropWhile p).dropWhile p = l.dropWhile p := by
  intro l
  induction l with
  | nil => rfl
  | cons a l ih =>
    by_cases h : p a
    · simp [List.dropWhile_cons, h, ih]
    · simp [List.dropWhile_cons, h]

theorem dropWhile_back_strip (p : Char → Bool) (l : List Char) (h : l.dropWhile p = l) :
    ((l.reverse.dropWhile p).reverse).dropWhile p = (l.reverse.dropWhile p).reverse := by
  cases l with
  | nil => simp
  | cons x xs =>
    have hx : p x = false := by
      by_cases hc : p x
      · exfalso
        rw [List.dropWhile_cons] at h
        simp only [hc, if_true] at h
        have hle : (xs.dropWhile p).length ≤ xs.length :=
          (List.dropWhile_sublist p).length_le
        rw [h] at hle
        simp at hle
      · simpa using hc
    rw [List.reverse_cons, List.dropWhile_append]
    cases he : (xs.reverse.dropWhile p).isEmpty with
    | true => simp [he, List.dropWhile_cons, hx]
    | false => simp [he, List.reverse_append, List.dropWhile_cons, hx]

theorem stripList_front_fixed (p : Char → Bool) (l : List Char) :
    (stripList p l).dropWhile p = stripList p l :=
  dropWhile_back_strip p (l.dropWhile p) (dropWhile_dropWhile p l)

theorem stripList_idem (p : Char → Bool) (l : List Char) :
    stripList p (stripList p l) = stripList p l := by
  unfold stripList
  rw [show ((l.dropWhile p).reverse.dropWhile p).reverse.dropWhile p
        = ((l.dropWhile p).reverse.dropWhile p).reverse from stripList_front_fixed p l]
  rw [List.reverse_reverse, dropWhile_dropWhile]

theorem pyStrip_idem (s : String) : pyStrip (pyStrip s) = pyStrip s := by
  unfold pyStrip
  exact congrArg String.mk (stripList_idem isPySpace s.data)

/-! ### Claim theorems -/

/-- C1. The claim reads: in every reachable store state every movie row's
`user_id` references an existing user row, and in particular `add_movie`
with an unknown `user_id` does not create a dangling movie row. The code
violates its own schema: `init_db` declares `FOREIGN KEY (user_id)
REFERENCES users(id)`, but SQLite leaves foreign keys unenforced without
`PRAGMA foreign_keys=ON`, which the engine never issues. On the freshly
initialised empty database, `add_movie` with `user_id = 999` succeeds and
creates a movie row whose user does not exist. -/
theorem addMovie_dangling_user_insert :
    ∃ db2, add_movie "Ghost" 2000 5 "" 999 initDB = Except.ok db2 ∧
      (∃ m ∈ db2.movies, m.user_id = 999) ∧ (∀ u ∈ db2.users, u.id ≠ 999) := by
  refine ⟨⟨[], [⟨1, "Ghost", 2000, 5, "", 999⟩], 0, 1⟩, rfl, ?_, ?_⟩
  · exact ⟨⟨1, "Ghost", 2000, 5, "", 999⟩, by decide, rfl⟩
  · intro u hu
    simp at hu

/-- C6. `get_or_create_user` fails with a validation error exactly on an
empty or whitespace-only name; on any other name two successive calls
return the same user identity, the second call looking the row up without
changing the database. -/
theorem getOrCreateUser_idempotent (name : String) (db : DB) :
    (pyStrip name = "" → get_or_create_user name db = Except.error "User name cannot be empty") ∧
    (pyStrip name ≠ "" → ∃ u db2, get_or_create_user name db = Except.ok (u, db2) ∧
        get_or_create_user name db2 = Except.ok (u, db2)) := by
  constructor
  · intro h
    simp [get_or_create_user, h]
  · intro h
    cases hfind : db.users.find? (fun r => r.name == pyStrip name) with
    | some row =>
        refine ⟨row, db, ?_, ?_⟩ <;> simp [get_or_create_user, h, hfind]
    | none =>
        refine ⟨⟨db.userSeq + 1, pyStrip name⟩,
          ⟨db.users ++ [⟨db.userSeq + 1, pyStrip name⟩], db.movies,
            db.userSeq + 1, db.movieSeq⟩, ?_, ?_⟩ <;>
          simp [get_or_create_user, h, hfind, List.find?_append, List.find?]

/-- C10 (implicit). `get_or_create_user` identifies names up to surrounding
whitespace: for a name whose trimmed form is non-empty, calling it on the
raw name and on the trimmed name is indistinguishable (same returned id and
state), and the stored user name is the trimmed form. -/
theorem getOrCreateUser_trim (name : String) (db : DB) (h : pyStrip name ≠ "") :
    get_or_create_user name db = get_or_create_user (pyStrip name) db ∧
    (∀ u db2, get_or_create_user name db = Except.ok (u, db2) → u.name = pyStrip name) := by
  constructor
  · unfold get_or_create_user
    rw [pyStrip_idem]
  · intro u db2 hok
    simp only [get_or_create_user, if_neg h] at hok
    cases hfind : db.users.find? (fun r => r.name == pyStrip name) with
    | some row =>
        rw [hfind] at hok
        have hp := List.find?_some hfind
        cases hok
        exact eq_of_beq hp
    | none =>
        rw [hfind] at hok
        cases hfind2 : (db.users ++ [(⟨db.userSeq + 1, pyStrip name⟩ : UserRow)]).find?
            (fun r => r.name == pyStrip name) with
        | some row2 =>
            rw [hfind2] at hok
            have hp := List.find?_some hfind2
            cases hok
            exact eq_of_beq hp
        | none =>
            rw [List.find?_append, hfind] at hfind2
            simp [List.find?] at hfind2

theorem countP_not_add {α : Type} (p : α → Bool) (l : List α) :
    (l.countP fun a => !(p a)) + l.countP p = l.length := by
  induction l with
  | nil => rfl
  | cons a l ih =>
    rw [List.countP_cons, List.countP_cons]
    by_cases h : p a = true
    · simp only [h, Bool.not_true, if_pos, if_neg]
      simp
      omega
    · have h2 : p a = false := by simpa using h
      simp only [h2, Bool.not_false]
      simp
      omega

theorem matchesKey_iff (t : String) (u : Nat) (m : MovieRow) :
    matchesKey t u m = true ↔ m.title = t ∧ m.user_id = u := by
  simp [matchesKey]

theorem movieKey_eq_iff (t : String) (u : Nat) (m : MovieRow) :
    movieKey m = (t, u) ↔ m.title = t ∧ m.user_id = u := by
  simp [movieKey, Prod.ext_iff]

theorem countP_key_eq_one (t : String) (u : Nat) :
    ∀ l : List MovieRow, (l.map movieKey).Nodup →
      ∀ m ∈ l, m.title = t → m.user_id = u → l.countP (matchesKey t u) = 1 := by
  intro l
  induction l with
  | nil => intro _ m hm; simp at hm
  | cons a l ih =>
    intro hkeys m hm ht hu
    rw [List.map_cons, List.nodup_cons] at hkeys
    rw [List.countP_cons]
    rcases List.mem_cons.mp hm with rfl | hm2
    · have hz : l.countP (matchesKey t u) = 0 := by
        rw [List.countP_eq_zero]
        intro x hx hpx
        apply hkeys.1
        have hx2 : movieKey x = movieKey m := by
          rw [(movieKey_eq_iff t u x).mpr ((matchesKey_iff t u x).mp hpx),
            (movieKey_eq_iff t u m).mpr ⟨ht, hu⟩]
        rw [← hx2]
        exact List.mem_map_of_mem movieKey hx
      rw [hz, if_pos ((matchesKey_iff t u m).mpr ⟨ht, hu⟩)]
    · have ha : ¬(matchesKey t u a = true) := by
        intro hpa
        apply hkeys.1
        have hka : movieKey a = movieKey m := by
          rw [(movieKey_eq_iff t u a).mpr ((matchesKey_iff t u a).mp hpa),
            (movieKey_eq_iff t u m).mpr ⟨ht, hu⟩]
        rw [hka]
        exact List.mem_map_of_mem movieKey hm2
      rw [if_neg ha, ih hkeys.2 m hm2 ht hu]

theorem lookup_eq_of_unique {β : Type} (t : String) (v : β) :
    ∀ l : List (String × β), (t, v) ∈ l → (∀ q ∈ l, q.1 = t → q.2 = v) →
      l.lookup t = some v := by
  intro l
  induction l with
  | nil => intro hmem _; simp at hmem
  | cons a l ih =>
    intro hmem huniq
    obtain ⟨k, w⟩ := a
    rw [List.lookup_cons]
    by_cases hk : (t == k) = true
    · have hw : w = v := huniq (k, w) (List.mem_cons_self _ _) (eq_of_beq hk).symm
      simp [hk, hw]
    · have hbf : (t == k) = false := by simpa using hk
      simp only [hbf]
      apply ih
      · rcases List.mem_cons.mp hmem with heq | hmem2
        · exfalso
          apply hk
          rw [show k = t from congrArg Prod.fst heq.symm]
          exact beq_self_eq_true t
        · exact hmem2
      · intro q hq hqt
        exact huniq q (List.mem_cons_of_mem _ hq) hqt

/-- C2. When a movie row with key `(title, user)` already exists, a second
`add_movie` for the same key raises at the storage layer, is caught and
reported (not re-raised) by `command_add_movie`, and afterwards exactly one
row with that key exists: the database is unchanged. -/
theorem addMovie_duplicate_reports (t : String) (y : Int) (r : ℚ) (p : String) (u : Nat)
    (db : DB) (hkeys : (db.movies.map movieKey).Nodup)
    (hex : ∃ m ∈ db.movies, m.title = t ∧ m.user_id = u) :
    (∃ e, add_movie t y r p u db = Except.error e) ∧
    (∃ msg, add_movie_checked t y r p u db = (db, some msg)) ∧
    (add_movie_checked t y r p u db).1.movies.countP (matchesKey t u) = 1 := by
  obtain ⟨m, hm, ht, hu⟩ := hex
  have hany : db.movies.any (matchesKey t u) = true :=
    List.any_eq_true.mpr ⟨m, hm, (matchesKey_iff t u m).mpr ⟨ht, hu⟩⟩
  have herr : add_movie t y r p u db
      = Except.error "UNIQUE constraint failed: movies.title, movies.user_id" := by
    simp [add_movie, hany]
  refine ⟨⟨_, herr⟩,
    ⟨"Error while adding movie: UNIQUE constraint failed: movies.title, movies.user_id", ?_⟩, ?_⟩
  · simp [add_movie_checked, herr]
  · simp only [add_movie_checked, herr]
    exact countP_key_eq_one t u db.movies hkeys m hm ht hu

/-- C2 witness: on the sample database, adding Alice's "Inception" again is
reported as an error and exactly one `("Inception", 1)` row remains. -/
theorem addMovie_duplicate_reports_witness :
    ((exDB.movies.map movieKey).Nodup ∧
      ∃ m ∈ exDB.movies, m.title = "Inception" ∧ m.user_id = 1) ∧
    (∃ e, add_movie "Inception" 2010 9 "" 1 exDB = Except.error e) ∧
    (∃ msg, add_movie_checked "Inception" 2010 9 "" 1 exDB = (exDB, some msg)) ∧
    (add_movie_checked "Inception" 2010 9 "" 1 exDB).1.movies.countP
      (matchesKey "Inception" 1) = 1 :=
  ⟨⟨by decide, by decide⟩,
   addMovie_duplicate_reports "Inception" 2010 9 "" 1 exDB (by decide) (by decide)⟩

/-- C3. When `(title, user)` is not yet present, `add_movie` succeeds and
`list_movies` for that user afterwards contains the title, mapped to
exactly the given year, rating and poster URL. -/
theorem addMovie_listMovies_contains (t : String) (y : Int) (r : ℚ) (p : String) (u : Nat)
    (db : DB) (habs : ∀ m ∈ db.movies, ¬(m.title = t ∧ m.user_id = u)) :
    ∃ db2, add_movie t y r p u db = Except.ok db2 ∧
      (t, MovieEntry.mk y r p) ∈ list_movies u db2 ∧
      (list_movies u db2).lookup t = some (MovieEntry.mk y r p) := by
  have hany : db.movies.any (matchesKey t u) = false := by
    rw [List.any_eq_false]
    intro m hm hpm
    exact habs m hm ((matchesKey_iff t u m).mp hpm)
  have hok : add_movie t y r p u db =
      Except.ok ⟨db.users, db.movies ++ [⟨db.movieSeq + 1, t, y, r, p, u⟩],
        db.userSeq, db.movieSeq + 1⟩ := by
    simp [add_movie, hany]
  have hfilter : ((db.movies ++ [(⟨db.movieSeq + 1, t, y, r, p, u⟩ : MovieRow)]).filter
        (fun m => m.user_id == u))
      = db.movies.filter (fun m => m.user_id == u)
        ++ [(⟨db.movieSeq + 1, t, y, r, p, u⟩ : MovieRow)] := by
    rw [List.filter_append]
    congr 1
    simp [List.filter]
  have hmemF : (⟨db.movieSeq + 1, t, y, r, p, u⟩ : MovieRow)
      ∈ (db.movies ++ [(⟨db.movieSeq + 1, t, y, r, p, u⟩ : MovieRow)]).filter
          (fun m => m.user_id == u) := by
    rw [hfilter]
    exact List.mem_append_right _ (List.mem_singleton.mpr rfl)
  have hmemS : (⟨db.movieSeq + 1, t, y, r, p, u⟩ : MovieRow)
      ∈ List.insertionSort titleLE
          ((db.movies ++ [(⟨db.movieSeq + 1, t, y, r, p, u⟩ : MovieRow)]).filter
            (fun m => m.user_id == u)) :=
    ((List.perm_insertionSort titleLE _).mem_iff).mpr hmemF
  refine ⟨_, hok, ?_, ?_⟩
  · exact List.mem_map.mpr ⟨_, hmemS, rfl⟩
  · apply lookup_eq_of_unique
    · exact List.mem_map.mpr ⟨_, hmemS, rfl⟩
    · intro q hq hqt
      obtain ⟨mrow, hmrowS, hpair⟩ := List.mem_map.mp hq
      have hmrowF := ((List.perm_insertionSort titleLE _).mem_iff).mp hmrowS
      rw [hfilter] at hmrowF
      rcases List.mem_append.mp hmrowF with hin | hone
      · have hmem0 := List.mem_filter.mp hin
        have huid : mrow.user_id = u := by simpa using hmem0.2
        have htitle : mrow.title = t := by rw [← hpair] at hqt; exact hqt
        exact absurd ⟨htitle, huid⟩ (habs mrow hmem0.1)
      · have hrow : mrow = ⟨db.movieSeq + 1, t, y, r, p, u⟩ := by simpa using hone
        rw [← hpair, hrow]

/-- C3 witness: adding "Zulu" for Alice, `list_movies 1` then contains it
with the given fields. -/
theorem addMovie_listMovies_contains_witness :
    (∀ m ∈ exDB.movies, ¬(m.title = "Zulu" ∧ m.user_id = 1)) ∧
    ∃ db2, add_movie "Zulu" 1964 7 "" 1 exDB = Except.ok db2 ∧
      ("Zulu", MovieEntry.mk 1964 7 "") ∈ list_movies 1 db2 ∧
      (list_movies 1 db2).lookup "Zulu" = some (MovieEntry.mk 1964 7 "") :=
  ⟨by decide, addMovie_listMovies_contains "Zulu" 1964 7 "" 1 exDB (by decide)⟩

/-- C4. `update_movie` keeps the users table and the movies table's length,
rewrites each row at its position changing nothing but the rating — which
becomes `r` exactly on rows matching `(title, user)` — signals not-found
(rowcount 0) exactly when no row matches, and in that case leaves the whole
database unchanged. -/
theorem updateMovie_frame (t : String) (r : ℚ) (u : Nat) (db : DB) :
    (update_movie t r u db).1.users = db.users ∧
    (update_movie t r u db).1.movies.length = db.movies.length ∧
    (∀ i : Nat, ∀ m : MovieRow, db.movies[i]? = some m →
      ∃ m2 : MovieRow, (update_movie t r u db).1.movies[i]? = some m2 ∧
        m2.id = m.id ∧ m2.title = m.title ∧ m2.year = m.year ∧
        m2.poster_url = m.poster_url ∧ m2.user_id = m.user_id ∧
        m2.rating = (if m.title = t ∧ m.user_id = u then r else m.rating)) ∧
    ((update_movie t r u db).2 = 0 ↔ ∀ m ∈ db.movies, ¬(m.title = t ∧ m.user_id = u)) ∧
    ((∀ m ∈ db.movies, ¬(m.title = t ∧ m.user_id = u)) → (update_movie t r u db).1 = db) := by
  refine ⟨rfl, by simp [update_movie], ?_, ?_, ?_⟩
  · intro i m hi
    refine ⟨if matchesKey t u m then { m with rating := r } else m, ?_, ?_⟩
    · have hmv : (update_movie t r u db).1.movies
          = db.movies.map (fun x => if matchesKey t u x then { x with rating := r } else x) :=
        rfl
      rw [hmv, List.getElem?_map, hi]
      rfl
    · by_cases hc : m.title = t ∧ m.user_id = u
      · rw [if_pos ((matchesKey_iff t u m).mpr hc), if_pos hc]
        exact ⟨rfl, rfl, rfl, rfl, rfl, rfl⟩
      · rw [if_neg (fun hx => hc ((matchesKey_iff t u m).mp hx)), if_neg hc]
        exact ⟨rfl, rfl, rfl, rfl, rfl, rfl⟩
  · show db.movies.countP (matchesKey t u) = 0 ↔ _
    rw [List.countP_eq_zero]
    constructor
    · intro h m hm hc
      exact h m hm ((matchesKey_iff t u m).mpr hc)
    · intro h m hm hp
      exact h m hm ((matchesKey_iff t u m).mp hp)
  · intro h
    have hmap : db.movies.map
        (fun m => if matchesKey t u m then { m with rating := r } else m) = db.movies := by
      have h2 : ∀ m ∈ db.movies,
          (if matchesKey t u m then { m with rating := r } else m) = m := by
        intro m hm
        rw [if_neg (fun hx => h m hm ((matchesKey_iff t u m).mp hx))]
      calc db.movies.map (fun m => if matchesKey t u m then { m with rating := r } else m)
          = db.movies.map id := List.map_congr_left h2
        _ = db.movies := List.map_id _
    show ({ db with movies := _ } : DB) = db
    rw [hmap]

/-- C4 witness: updating Bob's "Inception" to rating 5 touches one row. -/
theorem updateMovie_frame_witness :
    (update_movie "Inception" 5 2 exDB).1.users = exDB.users ∧
    (update_movie "Inception" 5 2 exDB).2 = 1 ∧
    (update_movie "Inception" 5 2 exDB).1.movies
      = [⟨1, "Inception", 2010, 9, "", 1⟩, ⟨2, "Inception", 2010, 5, "", 2⟩,
         ⟨3, "Arrival", 2016, 8, "", 1⟩] := by
  have h := updateMovie_frame "Inception" 5 2 exDB
  exact ⟨h.1, by decide, by decide⟩

/-- C5. With unique `(title, user)` keys, `delete_movie t u1` on a database
where both `u1` and a different `u2` own a movie titled `t` reports
rowcount 1, removes the `(t, u1)` row and nothing else (the `(t, u2)` row
and every other row survive, in order); rowcount 0 is signalled exactly
when no row matches, and then the whole database is unchanged. -/
theorem deleteMovie_frame (t : String) (u1 u2 : Nat) (db : DB)
    (hkeys : (db.movies.map movieKey).Nodup) :
    (∀ m1 ∈ db.movies, ∀ m2 ∈ db.movies,
        m1.title = t → m1.user_id = u1 → m2.title = t → m2.user_id = u2 → u1 ≠ u2 →
        (delete_movie t u1 db).2 = 1 ∧
        m1 ∉ (delete_movie t u1 db).1.movies ∧
        m2 ∈ (delete_movie t u1 db).1.movies ∧
        (∀ m ∈ db.movies, m ≠ m1 → m ∈ (delete_movie t u1 db).1.movies) ∧
        (delete_movie t u1 db).1.movies.length + 1 = db.movies.length) ∧
    (delete_movie t u1 db).1.movies.Sublist db.movies ∧
    (delete_movie t u1 db).1.users = db.users ∧
    ((delete_movie t u1 db).2 = 0 ↔ ∀ m ∈ db.movies, ¬(m.title = t ∧ m.user_id = u1)) ∧
    ((delete_movie t u1 db).2 = 0 → (delete_movie t u1 db).1 = db) := by
  refine ⟨?_, List.filter_sublist _, rfl, ?_, ?_⟩
  · intro m1 hm1 m2 hm2 ht1 hu1 ht2 hu2 hne
    have hcount : db.movies.countP (matchesKey t u1) = 1 :=
      countP_key_eq_one t u1 db.movies hkeys m1 hm1 ht1 hu1
    refine ⟨hcount, ?_, ?_, ?_, ?_⟩
    · intro hmem
      have hnot := (List.mem_filter.mp hmem).2
      rw [(matchesKey_iff t u1 m1).mpr ⟨ht1, hu1⟩] at hnot
      simp at hnot
    · refine List.mem_filter.mpr ⟨hm2, ?_⟩
      have : matchesKey t u1 m2 = false := by
        rw [Bool.eq_false_iff]
        intro hx
        obtain ⟨_, hxu⟩ := (matchesKey_iff t u1 m2).mp hx
        rw [hu2] at hxu
        exact hne hxu.symm
      rw [this]
      rfl
    · intro m hm hmne
      refine List.mem_filter.mpr ⟨hm, ?_⟩
      have : matchesKey t u1 m = false := by
        rw [Bool.eq_false_iff]
        intro hx
        obtain ⟨hxt, hxu⟩ := (matchesKey_iff t u1 m).mp hx
        apply hmne
        exact List.inj_on_of_nodup_map hkeys hm hm1 (by
          rw [(movieKey_eq_iff t u1 m).mpr ⟨hxt, hxu⟩,
            (movieKey_eq_iff t u1 m1).mpr ⟨ht1, hu1⟩])
      rw [this]
      rfl
    · show (db.movies.filter fun m => !(matchesKey t u1 m)).length + 1 = db.movies.length
      have hlen := countP_not_add (matchesKey t u1) db.movies
      have hflen : (db.movies.filter fun m => !(matchesKey t u1 m)).length
          = db.movies.countP fun m => !(matchesKey t u1 m) :=
        (List.countP_eq_length_filter (fun m => !(matchesKey t u1 m)) db.movies).symm
      omega
  · show db.movies.countP (matchesKey t u1) = 0 ↔ _
    rw [List.countP_eq_zero]
    constructor
    · intro h m hm hc
      exact h m hm ((matchesKey_iff t u1 m).mpr hc)
    · intro h m hm hp
      exact h m hm ((matchesKey_iff t u1 m).mp hp)
  · intro h0
    show ({ db with movies := _ } : DB) = db
    have : db.movies.filter (fun m => !(matchesKey t u1 m)) = db.movies := by
      rw [List.filter_eq_self]
      intro m hm
      have := List.countP_eq_zero.mp h0 m hm
      simp only [Bool.not_eq_true] at this ⊢
      rw [this]
      rfl
    rw [this]

/-- C5 witness: deleting Alice's "Inception" from the sample database keeps
Bob's "Inception" and Alice's "Arrival". -/
theorem deleteMovie_frame_witness :
    (exDB.movies.map movieKey).Nodup ∧
    (delete_movie "Inception" 1 exDB).2 = 1 ∧
    (⟨2, "Inception", 2010, 7, "", 2⟩ : MovieRow) ∈ (delete_movie "Inception" 1 exDB).1.movies ∧
    (delete_movie "Inception" 1 exDB).1.movies.length + 1 = exDB.movies.length := by
  have h := deleteMovie_frame "Inception" 1 2 exDB (by decide)
  have h2 := h.1 ⟨1, "Inception", 2010, 9, "", 1⟩ (by decide)
    ⟨2, "Inception", 2010, 7, "", 2⟩ (by decide) rfl rfl rfl rfl (by decide)
  exact ⟨by decide, h2.1, h2.2.2.1, h2.2.2.2.2⟩

/-- C7. `list_movies u` is an association list from titles to records of
exactly year, rating and poster URL, with keys ascending in SQLite's title
order: its entries are pairwise sorted by title, its keys are exactly the
titles of `u`'s rows, and every entry comes from one of `u`'s rows. -/
theorem listMovies_sorted_mapping (u : Nat) (db : DB) :
    List.Pairwise (fun a b : String × MovieEntry => charListLE a.1.data b.1.data = true)
      (list_movies u db) ∧
    List.Perm ((list_movies u db).map Prod.fst)
      ((db.movies.filter (fun m => m.user_id == u)).map MovieRow.title) ∧
    (∀ e ∈ list_movies u db, ∃ m ∈ db.movies, m.user_id = u ∧
        e = (m.title, MovieEntry.mk m.year m.rating m.poster_url)) := by
  haveI : IsTotal MovieRow titleLE := ⟨fun a b => charListLE_total a.title.data b.title.data⟩
  haveI : IsTrans MovieRow titleLE :=
    ⟨fun a b c h1 h2 => charListLE_trans a.title.data b.title.data c.title.data h1 h2⟩
  refine ⟨?_, ?_, ?_⟩
  · have hsort := List.sorted_insertionSort titleLE (db.movies.filter (fun m => m.user_id == u))
    unfold List.Sorted at hsort
    exact List.Pairwise.map _ (fun a b hab => hab) hsort
  · have hperm := List.perm_insertionSort titleLE (db.movies.filter (fun m => m.user_id == u))
    unfold list_movies
    rw [List.map_map]
    exact hperm.map _
  · intro e he
    unfold list_movies at he
    obtain ⟨m, hmS, hpair⟩ := List.mem_map.mp he
    have hmF := ((List.perm_insertionSort titleLE _).mem_iff).mp hmS
    have hmem := List.mem_filter.mp hmF
    exact ⟨m, hmem.1, by simpa using hmem.2, hpair.symm⟩

/-- C7 witness: Alice's listing on the sample database has keys
["Arrival", "Inception"], ascending by title. -/
theorem listMovies_sorted_mapping_witness :
    List.Perm ((list_movies 1 exDB).map Prod.fst) ["Arrival", "Inception"] := by
  have h := (listMovies_sorted_mapping 1 exDB).2.1
  have e : (exDB.movies.filter (fun m => m.user_id == 1)).map MovieRow.title
      = ["Inception", "Arrival"] := by decide
  rw [e] at h
  exact h.trans (List.Perm.swap _ _ _)

/-- C6 witness: "   " is rejected; two calls for "Alice" on the fresh
database agree on the returned identity. -/
theorem getOrCreateUser_idempotent_witness :
    (pyStrip "   " = "" ∧
      get_or_create_user "   " initDB = Except.error "User name cannot be empty") ∧
    (pyStrip "Alice" ≠ "" ∧
      ∃ u db2, get_or_create_user "Alice" initDB = Except.ok (u, db2) ∧
        get_or_create_user "Alice" db2 = Except.ok (u, db2)) :=
  ⟨⟨by decide, (getOrCreateUser_idempotent "   " initDB).1 (by decide)⟩,
   ⟨by decide, (getOrCreateUser_idempotent "Alice" initDB).2 (by decide)⟩⟩

/-- C10 witness: "  Alice " and "Alice" denote the same user on the fresh
database, and the stored name is the trimmed "Alice". -/
theorem getOrCreateUser_trim_witness :
    pyStrip "  Alice " ≠ "" ∧
    get_or_create_user "  Alice " initDB = get_or_create_user "Alice" initDB ∧
    (∀ u db2, get_or_create_user "  Alice " initDB = Except.ok (u, db2) →
      u.name = "Alice") := by
  have h := getOrCreateUser_trim "  Alice " initDB (by decide)
  have e : pyStrip "  Alice " = "Alice" := by decide
  refine ⟨by decide, ?_, ?_⟩
  · rw [← e]
    exact h.1
  · intro u db2 hok
    rw [← e]
    exact h.2 u db2 hok

theorem dropWhile_congr {α : Type} (p q : α → Bool) :
    ∀ l : List α, (∀ c ∈ l, p c = q c) → l.dropWhile p = l.dropWhile q := by
  intro l
  induction l with
  | nil => intro _; rfl
  | cons a l ih =>
    intro h
    rw [List.dropWhile_cons, List.dropWhile_cons, h a (List.mem_cons_self a l)]
    by_cases hq : q a = true
    · rw [if_pos hq, if_pos hq]
      exact ih (fun c hc => h c (List.mem_cons_of_mem a hc))
    · rw [if_neg hq, if_neg hq]

theorem stripList_congr (p q : Char → Bool) (l : List Char) (h : ∀ c ∈ l, p c = q c) :
    stripList p l = stripList q l := by
  unfold stripList
  rw [dropWhile_congr p q l h]
  rw [dropWhile_congr p q (l.dropWhile q).reverse (fun c hc =>
    h c ((List.dropWhile_sublist q).subset (List.mem_reverse.mp hc)))]

theorem isPySpace_eq_space_of_keep (c : Char) (hk : keepChar c = true) :
    isPySpace c = decide (c = ' ') := by
  by_cases hc : c = ' '
  · subst hc
    rfl
  · cases h1 : isPySpace c with
    | true =>
        exfalso
        have hd : ((((c = ' ' ∨ c = '\t') ∨ c = '\n') ∨ c = '\x0d') ∨ c = '\x0b') ∨ c = '\x0c' := by
          simpa [isPySpace] using h1
        rcases hd with ((((h | h) | h) | h) | h) | h
        · exact hc h
        all_goals
          subst h
          exact absurd hk (by decide)
    | false =>
        simp [hc]

/-- C9 counterexample. The claim's sanitizer ("keep alphanumerics, spaces,
underscores, hyphens; replace spaces with underscores; default on empty")
disagrees with the code on the all-space name `"  "`: the code `strip()`s
the kept characters first and falls back to `"user"`, while the claim's
reading yields `"__"`. -/
theorem sanitize_trim_counterexample :
    sanitize_filename "  " = "user" ∧ claimSanitize "  " = "__" ∧
    ("user" : String) ≠ "__" :=
  ⟨by decide, by decide, by decide⟩

/-- C9 amended: the sanitizer keeps only alphanumerics, spaces, underscores
and hyphens, trims the surrounding spaces (the only whitespace surviving
the filter), then replaces spaces with underscores, and yields the fixed
name "user" when the result is empty. -/
theorem sanitize_filename_amended (name : String) :
    sanitize_filename name = amendedSanitize name := by
  have hcongr : stripList isPySpace (name.data.filter keepChar)
      = stripList (fun c => c = ' ') (name.data.filter keepChar) :=
    stripList_congr _ _ _ (fun c hc =>
      isPySpace_eq_space_of_keep c (List.of_mem_filter hc))
  simp only [sanitize_filename, amendedSanitize, hcongr]
  have hmk : ∀ X : List Char, (String.mk X = "") ↔ X = [] :=
    fun X => ⟨fun h => congrArg String.data h, fun h => congrArg String.mk h⟩
  by_cases hL : ((stripList (fun c => c = ' ') (name.data.filter keepChar)).map
      fun c => if c = ' ' then '_' else c) = []
  · rw [if_pos ((hmk _).mpr hL), if_pos (by simp [hL])]
  · rw [if_neg (fun h => hL ((hmk _).mp h)), if_neg (by simp [hL])]

/-- C8 counterexample. The claim's year rule ("the integer value of the
first 4 characters of the year field") disagrees with the code on a year
field with leading whitespace: for `Year = " 2014"`, the code strips first
and parses 2014, while the first 4 raw characters `" 201"` parse to 201. -/
theorem parse_year_untrimmed_counterexample :
    (parse_omdb_result ⟨some "Interstellar", some " 2014", none, none⟩).2.1 = 2014 ∧
    claimYear ⟨some "Interstellar", some " 2014", none, none⟩ = 201 ∧
    (2014 : Int) ≠ 201 :=
  ⟨by decide, by decide, by decide⟩

/-- C8 amended: `parse_omdb_result` returns the title trimmed of
surrounding whitespace; the year parsed from the first 4 characters of the
whitespace-trimmed year field with 0 on an absent field or failed parse;
the rating parsed from the whitespace-trimmed rating field with 0.0 on an
absent field, the empty string, the literal "N/A", or a failed parse; and
the poster field with the empty string when absent. -/
theorem parse_omdb_result_amended (d : OmdbData) :
    parse_omdb_result d
      = (pyStrip (d.Title.getD ""), amendedYear d, amendedRating d, d.Poster.getD "") := by
  rcases d with ⟨T, Y, R, P⟩
  cases Y <;> cases R <;> rfl

end MovieApp
